import Mathlib

/-!
# Mental-math quiz server: question generator, credential store, leaderboard

A shallow embedding of `src/main.go` and `src/db/database.go`.

* Go `int` / `int64` values are `Int`; every value computed here is far below `2^63`.
* `math/rand` draws are explicit inputs (`Draws`); `rand.Intn n` is a `Fin n`.
* `rand.Float32()` and SQLite `REAL` values are finite floats, taken as the rationals they denote
  (only their order is used).
* The external HTTP services, `bcrypt` and the JSON decoder are parameters.
* The SQLite tables are lists of rows in rowid order.
-/

namespace MentalMath

set_option linter.dupNamespace false

/-! ## Strings and numbers -/

/-- Go `strconv.Itoa`: the decimal text of an integer. -/
def Itoa (n : Int) : String :=
  if n < 0 then "-" ++ Nat.repr n.natAbs else Nat.repr n.natAbs

/-! ## `main.go`: data types -/

/-- Go `type Question struct` of `main.go`. -/
structure Question where
  ID : Int
  Question : String
  Answer : Int
  Level : String
  Fact : String
  Timestamp : Int
  deriving DecidableEq, Repr

/-- The zero value of `Question`, the initial content of the package variable
`currentQuestion`. -/
def zeroQuestion : Question :=
  ⟨0, "", 0, "", "", 0⟩

/-- Outcome of `http.Get` followed by `io.ReadAll` on the response body: the outer error is the
one of `http.Get`, the inner one the one of `io.ReadAll`. -/
abbrev HttpGet := String → Except String (Except String String)

/-- The random and clock inputs read by one run of `generateQuestion`. -/
structure Draws where
  /-- First `rand.Intn(90)`. -/
  num1 : Fin 90
  /-- Second `rand.Intn(90)`. -/
  num2 : Fin 90
  /-- The draw `rand.Intn(len(operations))`. -/
  op : Fin 3
  /-- The draw `rand.Intn(9)` of the multiply branch. -/
  reroll : Fin 9
  /-- The value of `rand.Float32()`. -/
  coin : ℚ
  /-- The draw `rand.Intn(len(factTypes))` inside `getNumberFact`. -/
  factType : Fin 3
  /-- The value of `rand.Int()`. -/
  id : Nat
  /-- The value of `time.Now().UnixNano()`. -/
  nowNano : Int

/-- The slice `factTypes` of `getNumberFact`. -/
def factTypes : List String := ["math", "trivia", "year"]

/-- The slice `operations` of `generateQuestion`. -/
def operations : List String := ["+", "-", "×"]

/-- Go `getNumberFact`: ask numbersapi for a fact of a randomly chosen type about `number`. -/
def getNumberFact (get : HttpGet) (factType : Fin 3) (number : Int) : Except String String :=
  let ft := factTypes.getD factType.val ""
  match get ("http://numbersapi.com/" ++ Itoa number ++ "/" ++ ft) with
  | .error e => .error e
  | .ok resp =>
    match resp with
    | .error e => .error e
    | .ok body => .ok body

/-- The text kept from a `getNumberFact` result by the pattern
`if f, err := getNumberFact(n); err == nil` with body `fact = f`, starting from `fact := ""`. -/
def factOrEmpty (r : Except String String) : String :=
  match r with
  | .ok f => f
  | .error _ => ""

/-- Go `generateQuestion`. -/
def generateQuestion (get : HttpGet) (d : Draws) : Question :=
  let num1 : Int := (d.num1.val : Int) + 10
  let num2 : Int := (d.num2.val : Int) + 10
  let op := operations.getD d.op.val ""
  -- the `switch op`: the multiply case re-rolls `num2` before computing the answer
  let num2answer : Int × Int :=
    if op = "+" then (num2, num1 + num2)
    else if op = "-" then (num2, num1 - num2)
    else if op = "×" then
      let n2 : Int := (d.reroll.val : Int) + 2
      (n2, num1 * n2)
    else (num2, 0)
  let num2 := num2answer.1
  let answer := num2answer.2
  let fact :=
    if d.coin < 1 / 2 then
      match getNumberFact get d.factType num1 with
      | .ok f => f
      | .error _ => ""
    else
      match getNumberFact get d.factType num2 with
      | .ok f => f
      | .error _ => ""
  { ID := d.id
    Question := Itoa num1 ++ " " ++ op ++ " " ++ Itoa num2
    Answer := answer
    Level := "medium"
    Fact := fact
    Timestamp := Int.tdiv d.nowNano 1000000 }

/-! ## Reading a question text back -/

/-- Split a character list at every space. -/
def splitSpace : List Char → List (List Char)
  | [] => [[]]
  | c :: cs =>
    if c = ' ' then [] :: splitSpace cs
    else
      match splitSpace cs with
      | [] => [[c]]
      | w :: ws => (c :: w) :: ws

/-- Value of a decimal digit character. -/
def digitVal (c : Char) : Option Nat :=
  if '0' ≤ c ∧ c ≤ '9' then some (c.toNat - '0'.toNat) else none

/-- Read digits left to right, starting from the accumulator `acc`. -/
def parseDigits : Nat → List Char → Option Nat
  | acc, [] => some acc
  | acc, c :: cs =>
    match digitVal c with
    | none => none
    | some v => parseDigits (10 * acc + v) cs

/-- Read a non-empty decimal numeral. -/
def parseNat : List Char → Option Nat
  | [] => none
  | cs => parseDigits 0 cs

/-- Read a decimal integer with an optional leading minus sign. -/
def parseInt : List Char → Option Int
  | '-' :: cs => (parseNat cs).map fun n => -(n : Int)
  | cs => (parseNat cs).map fun n => (n : Int)

/-- Read a question text `"<a> <op> <b>"` back into first operand, operator and second
operand. -/
def parseQuestion (s : String) : Option (Int × String × Int) :=
  match splitSpace s.data with
  | [a, op, b] =>
    match parseInt a, parseInt b with
    | some x, some y => some (x, String.mk op, y)
    | _, _ => none
  | _ => none

/-- The arithmetic result the specification assigns to an operator: the sum for `+`, first minus
second for `-`, the product for `×`. -/
def arithmeticResult (op : String) (a b : Int) : Option Int :=
  if op = "+" then some (a + b)
  else if op = "-" then some (a - b)
  else if op = "×" then some (a * b)
  else none

/-! ## `main.go`: HTTP responses, question endpoints -/

/-- What a handler writes: `http.Error(w, msg, code)`, a bare `w.WriteHeader(code)`, or a JSON
document encoded to the response writer. -/
inductive Response (α : Type) where
  | error (msg : String) (code : Nat)
  | status (code : Nat)
  | json (v : α)
  deriving DecidableEq, Repr

/-- The anonymous `submission` struct decoded by `VerifyAnswer`. -/
structure Submission where
  QuestionID : Int
  Answer : Int
  TimeSpent : Int
  deriving DecidableEq, Repr

/-- The `response` map encoded by `VerifyAnswer`. -/
structure VerifyResponse where
  correct : Bool
  fact : String
  deriving DecidableEq, Repr

/-- Go `GetRandomQuestion`: overwrite the package variable `currentQuestion` and encode it.
Returns the new `currentQuestion` and the response. -/
def GetRandomQuestion (get : HttpGet) (d : Draws) (_currentQuestion : Question) :
    Question × Response Question :=
  let q := generateQuestion get d
  (q, .json q)

/-- Go `VerifyAnswer`; `body` is the outcome of decoding the request body, `factType` the draw of
the `getNumberFact` call. It reads `currentQuestion` and does not write it. -/
def VerifyAnswer (get : HttpGet) (factType : Fin 3) (currentQuestion : Question)
    (body : Except String Submission) : Response VerifyResponse :=
  match body with
  | .error e => .error e 400
  | .ok submission =>
    let fact :=
      if submission.Answer = currentQuestion.Answer then
        match getNumberFact get factType submission.Answer with
        | .ok f => f
        | .error _ => ""
      else ""
    .json { correct := decide (submission.Answer = currentQuestion.Answer), fact := fact }

/-- A request to one of the two question endpoints. -/
inductive QuizRequest where
  | random (d : Draws)
  | verify (factType : Fin 3) (body : Except String Submission)

/-- The value of `currentQuestion` after one request. -/
def QuizRequest.step (get : HttpGet) (cur : Question) : QuizRequest → Question
  | .random d => (GetRandomQuestion get d cur).1
  | .verify _ _ => cur

/-- The value of `currentQuestion` after a sequence of requests served one after the other. -/
def currentAfter (get : HttpGet) (cur : Question) (reqs : List QuizRequest) : Question :=
  reqs.foldl (QuizRequest.step get) cur

/-! ## `db/database.go`: the three tables -/

/-- A row of `users` (the column `created_at` is never read and is left out). -/
structure UserRow where
  id : Int
  username : String
  password : String
  avatar : String
  deriving DecidableEq, Repr

/-- A row of `scores`. -/
structure ScoreRow where
  id : Int
  user_id : Int
  score : Int
  avg_speed : ℚ
  deriving DecidableEq, Repr

/-- A row of `github_users`. -/
structure GithubUserRow where
  id : Int
  github_id : Int
  username : String
  deriving DecidableEq, Repr

/-- The database behind the package variable `DB`: each table in rowid order together with its
`sqlite_sequence` entry (the largest rowid ever handed out by `AUTOINCREMENT`). -/
structure Store where
  users : List UserRow
  usersSeq : Int
  scores : List ScoreRow
  scoresSeq : Int
  github_users : List GithubUserRow
  githubSeq : Int
  deriving DecidableEq, Repr

/-- The state left by `createTables`: all three tables dropped and created again. -/
def createTables : Store :=
  ⟨[], 0, [], 0, [], 0⟩

/-- The rowid `AUTOINCREMENT` gives to a new row: one more than the largest rowid ever used. -/
def nextId (ids : List Int) (seq : Int) : Int :=
  ids.foldl max seq + 1

/-- The constraints SQLite maintains: the primary keys are unique, and so are `users.username`
and `github_users.github_id`. -/
structure Store.WF (db : Store) : Prop where
  users_id : (db.users.map (·.id)).Nodup
  users_name : (db.users.map (·.username)).Nodup
  scores_id : (db.scores.map (·.id)).Nodup
  github_id : (db.github_users.map (·.id)).Nodup
  github_gid : (db.github_users.map (·.github_id)).Nodup

/-- The `bcrypt` package: `GenerateFromPassword(password, DefaultCost)` with the random salt as
an explicit input, and `CompareHashAndPassword(hash, password)` returning its error. -/
structure Bcrypt where
  GenerateFromPassword : String → Nat → Except String String
  CompareHashAndPassword : String → String → Option String

/-- Outcome of the avatar request of `RegisterUser`: `client.Get` may fail, decoding the body may
fail, and the decoded `results` array carries the thumbnails. -/
abbrev AvatarFetch := Except String (Except String (List String))

/-- The avatar block of `RegisterUser`: the first thumbnail when the request and the decoding
succeed and `results` is not empty, the empty string otherwise. -/
def fetchedAvatar (av : AvatarFetch) : String :=
  match av with
  | .ok (.ok (thumbnail :: _)) => thumbnail
  | _ => ""

/-- The statement `INSERT INTO users (username, password, avatar)`, with the `UNIQUE` constraint on
`username`. -/
def insertUser (db : Store) (username password avatar : String) : Option String × Store :=
  if db.users.any (fun r => r.username = username) then
    (some "UNIQUE constraint failed: users.username", db)
  else
    let id := nextId (db.users.map (·.id)) db.usersSeq
    (none, { db with users := db.users ++ [⟨id, username, password, avatar⟩], usersSeq := id })

/-- Go `RegisterUser`. Returns the `error` (`none` for `nil`) and the database afterwards. -/
def RegisterUser (bc : Bcrypt) (salt : Nat) (av : AvatarFetch) (db : Store)
    (username password : String) : Option String × Store :=
  -- SELECT EXISTS(SELECT 1 FROM users WHERE username = ?)
  let exists_ := db.users.any (fun r => r.username = username)
  if exists_ then (some "username already exists", db)
  else
    match bc.GenerateFromPassword password salt with
    | .error e => (some e, db)
    | .ok hashedPassword =>
      let avatar := fetchedAvatar av
      insertUser db username hashedPassword avatar

/-- Go `ValidateUser`. -/
def ValidateUser (bc : Bcrypt) (db : Store) (username password : String) : Except String Int :=
  -- SELECT id, password FROM users WHERE username = ?
  match db.users.find? (fun r => r.username = username) with
  | none => .error "sql: no rows in result set"
  | some row =>
    match bc.CompareHashAndPassword row.password password with
    | some e => .error e
    | none => .ok row.id

/-- Go `SaveScore`: `scores.user_id` is not checked against `users` (the connection string does
not switch foreign keys on). -/
def SaveScore (db : Store) (userID score : Int) (avgSpeed : ℚ) : Option String × Store :=
  let id := nextId (db.scores.map (·.id)) db.scoresSeq
  (none, { db with scores := db.scores ++ [⟨id, userID, score, avgSpeed⟩], scoresSeq := id })

/-- Go `type LeaderboardEntry struct` of `database.go`. -/
structure LeaderboardEntry where
  Username : String
  Score : Int
  AvgSpeed : ℚ
  Avatar : String
  deriving DecidableEq, Repr

/-- The rows of `FROM scores s JOIN users u ON s.user_id = u.id`. -/
def joinScoresUsers (db : Store) : List (ScoreRow × UserRow) :=
  db.scores.flatMap fun s => (db.users.filter fun u => s.user_id = u.id).map fun u => (s, u)

/-- The order of `ORDER BY s.avg_speed ASC`. -/
def bySpeedAsc (a b : ScoreRow × UserRow) : Prop := a.1.avg_speed ≤ b.1.avg_speed

/-- The order of `ORDER BY s.score DESC`. -/
def byScoreDesc (a b : ScoreRow × UserRow) : Prop := b.1.score ≤ a.1.score

instance : DecidableRel bySpeedAsc :=
  fun a b => inferInstanceAs (Decidable (a.1.avg_speed ≤ b.1.avg_speed))

instance : DecidableRel byScoreDesc :=
  fun a b => inferInstanceAs (Decidable (b.1.score ≤ a.1.score))

/-- The result rows of the query of `GetLeaderboard`, before they are scanned into entries:
join, `ORDER BY` (ties stay in join order) and `LIMIT 10`. -/
def leaderboardRows (db : Store) (sortBy : String) : List (ScoreRow × UserRow) :=
  if sortBy = "speed" then
    ((joinScoresUsers db).insertionSort bySpeedAsc).take 10
  else
    ((joinScoresUsers db).insertionSort byScoreDesc).take 10

/-- The `rows.Scan` of `GetLeaderboard`. -/
def scanEntry (r : ScoreRow × UserRow) : LeaderboardEntry :=
  ⟨r.2.username, r.1.score, r.1.avg_speed, r.2.avatar⟩

/-- Go `db.GetLeaderboard`. -/
def GetLeaderboard (db : Store) (sortBy : String) : Except String (List LeaderboardEntry) :=
  .ok ((leaderboardRows db sortBy).map scanEntry)

/-- The statement `INSERT INTO github_users (github_id, username)`, with the `UNIQUE` constraint
on `github_id`; returns `LastInsertId`. -/
def insertGithubUser (db : Store) (githubID : Int) (username : String) :
    Except String Int × Store :=
  if db.github_users.any (fun r => r.github_id = githubID) then
    (.error "UNIQUE constraint failed: github_users.github_id", db)
  else
    let id := nextId (db.github_users.map (·.id)) db.githubSeq
    (.ok id, { db with github_users := db.github_users ++ [⟨id, githubID, username⟩],
                       githubSeq := id })

/-- Go `GetOrCreateGithubUser`. -/
def GetOrCreateGithubUser (db : Store) (githubID : Int) (username : String) :
    Except String Int × Store :=
  -- SELECT id FROM github_users WHERE github_id = ?
  match db.github_users.find? (fun r => r.github_id = githubID) with
  | some row => (.ok row.id, db)
  | none => insertGithubUser db githubID username

/-- A call that may write to the database. -/
inductive StoreOp where
  | register (salt : Nat) (av : AvatarFetch) (username password : String)
  | saveScore (userID score : Int) (avgSpeed : ℚ)
  | githubUser (githubID : Int) (username : String)

/-- The database after one call. -/
def StoreOp.step (bc : Bcrypt) (db : Store) : StoreOp → Store
  | .register salt av u p => (RegisterUser bc salt av db u p).2
  | .saveScore uid sc sp => (SaveScore db uid sc sp).2
  | .githubUser g n => (GetOrCreateGithubUser db g n).2

/-- The database after a sequence of calls. -/
def runOps (bc : Bcrypt) (db : Store) (ops : List StoreOp) : Store :=
  ops.foldl (StoreOp.step bc) db

/-! ## `main.go`: registration and login -/

/-- Go `type User struct` of `main.go`, the decoded request body of registration and login. -/
structure User where
  ID : Int
  Username : String
  Password : String
  Score : Int
  AvgSpeed : ℚ
  deriving DecidableEq, Repr

/-- The entries of `session.Values` the handlers use. -/
structure SessionValues where
  userID : Option Int
  username : Option String
  deriving DecidableEq, Repr

/-- Go `RegisterHandler`. Returns the response and the database afterwards. -/
def RegisterHandler (bc : Bcrypt) (salt : Nat) (av : AvatarFetch) (db : Store)
    (body : Except String User) : Response Unit × Store :=
  match body with
  | .error e => (.error e 400, db)
  | .ok user =>
    if user.Username = "" ∨ user.Password = "" then
      (.error "Username and password are required" 400, db)
    else
      match RegisterUser bc salt av db user.Username user.Password with
      | (some err, db1) =>
        if err = "username already exists" then (.error "Username already exists" 409, db1)
        else (.error "Registration failed" 500, db1)
      | (none, db1) => (.status 201, db1)

/-- Go `LoginHandler`. `sessionGet` is the outcome of `store.Get(r, "session-name")` and
`saveErr` the error of `session.Save`. Returns the response and the session values written with
the cookie, if any. -/
def LoginHandler (bc : Bcrypt) (db : Store) (sessionGet : Except String SessionValues)
    (saveErr : Option String) (body : Except String User) :
    Response Unit × Option SessionValues :=
  match body with
  | .error e => (.error e 400, none)
  | .ok user =>
    if user.Username = "" ∨ user.Password = "" then
      (.error "Username and password are required" 400, none)
    else
      match ValidateUser bc db user.Username user.Password with
      | .error _ => (.error "Invalid credentials" 401, none)
      | .ok userID =>
        match sessionGet with
        | .error _ => (.error "Session error" 500, none)
        | .ok session =>
          let session := { session with userID := some userID, username := some user.Username }
          match saveErr with
          | some _ => (.error "Failed to create session" 500, none)
          | none => (.status 200, some session)

/-! ## Example inputs and the vocabulary of the leaderboard statements -/

/-- A trivia service that answers every request with the same text. -/
def constantFacts : HttpGet := fun _ => .ok (.ok "a fact")

/-- Draws with the coin at `3/4`: operands 15 and 20, operator `+`. -/
def drawsCoinHigh : Draws :=
  { num1 := 5, num2 := 10, op := 0, reroll := 0, coin := 3 / 4, factType := 0, id := 1,
    nowNano := 0 }

/-- A password scheme for examples: the hash of `p` is the text `hash of p`. -/
def exampleBcrypt : Bcrypt where
  GenerateFromPassword p _ := .ok ("hash of " ++ p)
  CompareHashAndPassword h p :=
    if h = "hash of " ++ p then none
    else some "crypto/bcrypt: hashedPassword is not the hash of the given password"

/-- The store after `alice` registered with password `pw1`. -/
def aliceStore : Store :=
  (RegisterUser exampleBcrypt 0 (.ok (.ok [])) createTables "alice" "pw1").2

/-- The result rows of the leaderboard query that come from the `scores` row with the given
id. -/
def leaderboardHits (db : Store) (sortBy : String) (scoreId : Int) : List (ScoreRow × UserRow) :=
  (leaderboardRows db sortBy).filter fun r => decide (r.1.id = scoreId)

/-- The joined rows that the ordering chosen by `sortBy` does not place behind a row with the
given score and average speed: score at least as high, or, for `speed`, speed at most as high. -/
def rowsNotBehind (db : Store) (sortBy : String) (score : Int) (avgSpeed : ℚ) :
    List (ScoreRow × UserRow) :=
  (joinScoresUsers db).filter fun r =>
    if sortBy = "speed" then decide (r.1.avg_speed ≤ avgSpeed) else decide (score ≤ r.1.score)

/-- The joined rows that the ordering chosen by `sortBy` places strictly ahead of a row with the
given score and average speed. -/
def rowsAhead (db : Store) (sortBy : String) (score : Int) (avgSpeed : ℚ) :
    List (ScoreRow × UserRow) :=
  (joinScoresUsers db).filter fun r =>
    if sortBy = "speed" then decide (r.1.avg_speed < avgSpeed) else decide (score < r.1.score)

/-- The store after `alice` has submitted ten games with score 100. -/
def tenScoresStore : Store :=
  runOps exampleBcrypt aliceStore (List.replicate 10 (.saveScore 1 100 1))


/-! ## Theorems: question generator -/

theorem splitSpace_noSpace (w : List Char) (h : ' ' ∉ w) : splitSpace w = [w] := by
  induction w with
  | nil => rfl
  | cons c cs ih =>
    have hc : c ≠ ' ' := fun e => h (by simp [e])
    have hcs : ' ' ∉ cs := fun e => h (by simp [e])
    simp [splitSpace, hc, ih hcs]

theorem splitSpace_append (w rest : List Char) (h : ' ' ∉ w) :
    splitSpace (w ++ ' ' :: rest) = w :: splitSpace rest := by
  induction w with
  | nil => simp [splitSpace]
  | cons c cs ih =>
    have hc : c ≠ ' ' := fun e => h (by simp [e])
    have hcs : ' ' ∉ cs := fun e => h (by simp [e])
    simp [splitSpace, hc, ih hcs]

/-- Reading back a rendered question text gives the operands and the operator it was rendered
from, as soon as the three parts contain no space and the numerals read back. -/
theorem parseQuestion_render (a b : Int) (op : String)
    (ha : ' ' ∉ (Itoa a).data) (hop : ' ' ∉ op.data) (hb : ' ' ∉ (Itoa b).data)
    (pa : parseInt (Itoa a).data = some a) (pb : parseInt (Itoa b).data = some b) :
    parseQuestion (Itoa a ++ " " ++ op ++ " " ++ Itoa b) = some (a, op, b) := by
  have hd : (Itoa a ++ " " ++ op ++ " " ++ Itoa b).data
      = (Itoa a).data ++ ' ' :: (op.data ++ ' ' :: (Itoa b).data) := by
    simp [String.data_append]
  unfold parseQuestion
  rw [hd, splitSpace_append _ _ ha, splitSpace_append _ _ hop, splitSpace_noSpace _ hb]
  simp [pa, pb]

theorem itoa_twoDigit : ∀ a : Fin 90, ' ' ∉ (Itoa ((a.val : Int) + 10)).data ∧
    parseInt (Itoa ((a.val : Int) + 10)).data = some ((a.val : Int) + 10) := by
  decide

theorem itoa_reroll : ∀ a : Fin 9, ' ' ∉ (Itoa ((a.val : Int) + 2)).data ∧
    parseInt (Itoa ((a.val : Int) + 2)).data = some ((a.val : Int) + 2) := by
  decide

/-- Shape of every generated question: the text reads back as `(a, op, b)`, `a` is the first
draw shifted into `[10, 99]`, and operator, second operand and answer go together as in the
three cases of the `switch`; the fact is fetched for `a` or for `b` depending on the coin. -/
theorem generateQuestion_shape (get : HttpGet) (d : Draws) :
    ∃ a op b, parseQuestion (generateQuestion get d).Question = some (a, op, b) ∧
      a = (d.num1.val : Int) + 10 ∧
      ((op = "+" ∧ b = (d.num2.val : Int) + 10 ∧ (generateQuestion get d).Answer = a + b) ∨
       (op = "-" ∧ b = (d.num2.val : Int) + 10 ∧ (generateQuestion get d).Answer = a - b) ∨
       (op = "×" ∧ b = (d.reroll.val : Int) + 2 ∧ (generateQuestion get d).Answer = a * b)) ∧
      (generateQuestion get d).Fact =
        factOrEmpty (getNumberFact get d.factType (if d.coin < 1 / 2 then a else b)) := by
  obtain ⟨n1, n2, op, rr, coin, ft, id, now⟩ := d
  fin_cases op
  · refine ⟨(n1.val : Int) + 10, "+", (n2.val : Int) + 10, ?_, rfl, Or.inl ⟨rfl, rfl, ?_⟩, ?_⟩
    · simp only [generateQuestion, operations]
      simp
      exact parseQuestion_render _ _ _ (itoa_twoDigit n1).1 (by decide) (itoa_twoDigit n2).1
        (itoa_twoDigit n1).2 (itoa_twoDigit n2).2
    · simp [generateQuestion, operations]
    · simp only [generateQuestion, operations, factOrEmpty]
      simp
      split <;> rfl
  · refine ⟨(n1.val : Int) + 10, "-", (n2.val : Int) + 10, ?_, rfl,
      Or.inr (Or.inl ⟨rfl, rfl, ?_⟩), ?_⟩
    · simp only [generateQuestion, operations]
      simp
      exact parseQuestion_render _ _ _ (itoa_twoDigit n1).1 (by decide) (itoa_twoDigit n2).1
        (itoa_twoDigit n1).2 (itoa_twoDigit n2).2
    · simp [generateQuestion, operations]
    · simp only [generateQuestion, operations, factOrEmpty]
      simp
      split <;> rfl
  · refine ⟨(n1.val : Int) + 10, "×", (rr.val : Int) + 2, ?_, rfl,
      Or.inr (Or.inr ⟨rfl, rfl, ?_⟩), ?_⟩
    · simp only [generateQuestion, operations]
      simp
      exact parseQuestion_render _ _ _ (itoa_twoDigit n1).1 (by decide) (itoa_reroll rr).1
        (itoa_twoDigit n1).2 (itoa_reroll rr).2
    · simp [generateQuestion, operations]
    · simp only [generateQuestion, operations, factOrEmpty]
      simp
      split <;> rfl

/-- C1: for every outcome of the random draws, the text of the generated question reads back as
a first operand, an operator and a second operand, and the `Answer` is the arithmetic result of
that operator on these operands in that order (sum for `+`, first minus second for `-`, product
for `×`); with the draws that give operands 15 and 20 and the operator `+` the text is
`15 + 20` and the answer 35. -/
theorem generateQuestion_answer (get : HttpGet) (d : Draws) :
    (∃ a op b, parseQuestion (generateQuestion get d).Question = some (a, op, b) ∧
      arithmeticResult op a b = some (generateQuestion get d).Answer) ∧
    (generateQuestion get { d with num1 := 5, num2 := 10, op := 0 }).Question = "15 + 20" ∧
    (generateQuestion get { d with num1 := 5, num2 := 10, op := 0 }).Answer = 35 := by
  refine ⟨?_, ?_, ?_⟩
  · obtain ⟨a, op, b, hp, -, hcase, -⟩ := generateQuestion_shape get d
    refine ⟨a, op, b, hp, ?_⟩
    rcases hcase with ⟨rfl, -, h⟩ | ⟨rfl, -, h⟩ | ⟨rfl, -, h⟩
    · simp [arithmeticResult, h]
    · simp [arithmeticResult, h]
    · simp [arithmeticResult, h]
  · have h : (List.getD ["+", "-", "×"] ((0 : Fin 3) : Nat) "") = "+" := rfl
    simp only [generateQuestion, operations, h, if_true]
    decide
  · have h : (List.getD ["+", "-", "×"] ((0 : Fin 3) : Nat) "") = "+" := rfl
    simp only [generateQuestion, operations, h, if_true]
    decide

/-- C2: for every outcome of the random draws, the first operand shown in the generated question
lies in `[10, 99]`, the operator is one of `+`, `-`, `×`, and the second operand lies in
`[10, 99]` for `+` and `-` and in `[2, 10]` for `×`. -/
theorem generateQuestion_operand_ranges (get : HttpGet) (d : Draws) :
    ∃ a op b, parseQuestion (generateQuestion get d).Question = some (a, op, b) ∧
      (10 ≤ a ∧ a ≤ 99) ∧
      (((op = "+" ∨ op = "-") ∧ 10 ≤ b ∧ b ≤ 99) ∨ (op = "×" ∧ 2 ≤ b ∧ b ≤ 10)) := by
  obtain ⟨a, op, b, hp, ha, hcase, -⟩ := generateQuestion_shape get d
  have h1 := d.num1.isLt
  have h2 := d.num2.isLt
  have h3 := d.reroll.isLt
  refine ⟨a, op, b, hp, by omega, ?_⟩
  rcases hcase with ⟨rfl, hb, -⟩ | ⟨rfl, hb, -⟩ | ⟨rfl, hb, -⟩
  · exact Or.inl ⟨Or.inl rfl, by omega, by omega⟩
  · exact Or.inl ⟨Or.inr rfl, by omega, by omega⟩
  · exact Or.inr ⟨rfl, by omega, by omega⟩

/-- C10: the code departs from the claim, and from its own comment `50% chance to get a fact`.
With the coin at `3/4`, which is not below `1/2`, the `else` branch still calls
`getNumberFact(num2)`: with a trivia service that answers, the generated question carries the
fact received, where the claim says none is fetched and `Fact` is empty. -/
theorem coin_high_still_fetches_fact :
    ¬ (drawsCoinHigh.coin < 1 / 2) ∧
    (generateQuestion constantFacts drawsCoinHigh).Fact = "a fact" ∧
    (generateQuestion constantFacts drawsCoinHigh).Fact ≠ "" := by
  have hc : ¬ (drawsCoinHigh.coin < 1 / 2) := by
    simp only [drawsCoinHigh]
    norm_num
  have hf : (generateQuestion constantFacts drawsCoinHigh).Fact = "a fact" := by
    obtain ⟨a, op, b, -, -, -, h⟩ := generateQuestion_shape constantFacts drawsCoinHigh
    rw [h]
    simp [getNumberFact, constantFacts, factOrEmpty]
  refine ⟨hc, hf, ?_⟩
  rw [hf]
  decide

theorem currentAfter_verifies (get : HttpGet) (cur : Question)
    (later : List (Fin 3 × Except String Submission)) :
    currentAfter get cur (later.map fun p => QuizRequest.verify p.1 p.2) = cur := by
  induction later with
  | nil => rfl
  | cons p ps ih => simpa [currentAfter, QuizRequest.step] using ih

/-- C9: whatever was served before, once `GetRandomQuestion` has generated a question and only
verifications have followed, `VerifyAnswer` answers every decoded submission with
`correct = true` exactly when the submitted answer equals the `Answer` of that most recently
generated question; `QuestionID` and `TimeSpent` play no part. -/
theorem verifyAnswer_correct_iff (get : HttpGet) (cur0 : Question) (earlier : List QuizRequest)
    (d : Draws) (later : List (Fin 3 × Except String Submission)) (factType : Fin 3)
    (submission : Submission) :
    ∃ fact,
      VerifyAnswer get factType
          (currentAfter get cur0
            (earlier ++ QuizRequest.random d :: later.map fun p => QuizRequest.verify p.1 p.2))
          (.ok submission)
        = .json { correct := decide (submission.Answer = (generateQuestion get d).Answer),
                  fact := fact } ∧
      (decide (submission.Answer = (generateQuestion get d).Answer) = true ↔
        submission.Answer = (generateQuestion get d).Answer) := by
  have hcur : currentAfter get cur0
      (earlier ++ QuizRequest.random d :: later.map fun p => QuizRequest.verify p.1 p.2)
      = generateQuestion get d := by
    have := currentAfter_verifies get (generateQuestion get d) later
    simp only [currentAfter] at this ⊢
    rw [List.foldl_append, List.foldl_cons]
    simpa [QuizRequest.step, GetRandomQuestion] using this
  rw [hcur]
  exact ⟨_, rfl, by simp⟩

/-! ## Theorems: credential store -/

theorem insertUser_users (db : Store) (u h a : String) :
    ∃ extra, (insertUser db u h a).2.users = db.users ++ extra := by
  unfold insertUser
  split
  · exact ⟨[], by simp⟩
  · exact ⟨_, rfl⟩

theorem registerUser_users (bc : Bcrypt) (salt : Nat) (av : AvatarFetch) (db : Store)
    (u p : String) : ∃ extra, (RegisterUser bc salt av db u p).2.users = db.users ++ extra := by
  unfold RegisterUser
  by_cases hany : db.users.any (fun r => decide (r.username = u)) = true
  · exact ⟨[], by simp [hany]⟩
  · cases hg : bc.GenerateFromPassword p salt with
    | error e => exact ⟨[], by simp [hany]⟩
    | ok hashed => simpa [hany] using insertUser_users db u hashed (fetchedAvatar av)

theorem insertGithubUser_users (db : Store) (g : Int) (n : String) :
    (insertGithubUser db g n).2.users = db.users := by
  unfold insertGithubUser
  split <;> rfl

theorem step_users (bc : Bcrypt) (db : Store) (op : StoreOp) :
    ∃ extra, (StoreOp.step bc db op).users = db.users ++ extra := by
  cases op with
  | register salt av u p => exact registerUser_users bc salt av db u p
  | saveScore uid sc sp => exact ⟨[], by simp [StoreOp.step, SaveScore]⟩
  | githubUser g n =>
    refine ⟨[], ?_⟩
    simp only [StoreOp.step, GetOrCreateGithubUser, List.append_nil]
    split
    · rfl
    · exact insertGithubUser_users db g n

theorem runOps_users (bc : Bcrypt) (ops : List StoreOp) (db : Store) :
    ∃ extra, (runOps bc db ops).users = db.users ++ extra := by
  induction ops generalizing db with
  | nil => exact ⟨[], by simp [runOps]⟩
  | cons op ops ih =>
    obtain ⟨e1, h1⟩ := step_users bc db op
    obtain ⟨e2, h2⟩ := ih (StoreOp.step bc db op)
    refine ⟨e1 ++ e2, ?_⟩
    simp only [runOps, List.foldl_cons] at h2 ⊢
    rw [h2, h1, List.append_assoc]

/-- C3: in a store where `u` is not registered, when hashing `p` succeeds and the verifier accepts
the hash against `p`, `RegisterUser u p` succeeds and appends one row for `u`;
`ValidateUser u p` on the resulting store returns the id of that row, and it returns the same id
after any further sequence of registrations, score submissions and GitHub logins. -/
theorem registerUser_then_validateUser (bc : Bcrypt) (salt : Nat) (av : AvatarFetch) (db : Store)
    (u p h : String)
    (hnew : ∀ r ∈ db.users, r.username ≠ u)
    (hgen : bc.GenerateFromPassword p salt = .ok h)
    (hcmp : bc.CompareHashAndPassword h p = none) :
    ∃ row : UserRow,
      (RegisterUser bc salt av db u p).1 = none ∧
      (RegisterUser bc salt av db u p).2.users = db.users ++ [row] ∧
      row.username = u ∧
      ValidateUser bc (RegisterUser bc salt av db u p).2 u p = .ok row.id ∧
      ∀ ops, ValidateUser bc (runOps bc (RegisterUser bc salt av db u p).2 ops) u p
        = .ok row.id := by
  have hany : db.users.any (fun r => decide (r.username = u)) = false := by
    rw [Bool.eq_false_iff]
    intro hc
    obtain ⟨r, hr, hru⟩ := List.any_eq_true.1 hc
    exact hnew r hr (by simpa using hru)
  have hfind0 : db.users.find? (fun r => decide (r.username = u)) = none := by
    rw [List.find?_eq_none]
    intro r hr hc
    exact hnew r hr (by simpa using hc)
  generalize hrow : (⟨nextId (db.users.map (·.id)) db.usersSeq, u, h, fetchedAvatar av⟩ : UserRow)
    = row
  have hru : row.username = u := by rw [← hrow]
  have hpw : bc.CompareHashAndPassword row.password p = none := by rw [← hrow]; exact hcmp
  have hreg : RegisterUser bc salt av db u p
      = (none, { db with users := db.users ++ [row], usersSeq := row.id }) := by
    simp only [RegisterUser, insertUser, hany, hgen, ← hrow]
    rfl
  have hfind : ∀ extra, (db.users ++ [row] ++ extra).find? (fun r => decide (r.username = u))
      = some row := by
    intro extra
    simp [List.find?_append, hfind0, hru]
  refine ⟨row, ?_, ?_, hru, ?_, ?_⟩
  · rw [hreg]
  · rw [hreg]
  · have := hfind []
    rw [List.append_nil] at this
    rw [hreg]
    simp only [ValidateUser, this, hpw]
  · intro ops
    obtain ⟨extra, hx⟩ := runOps_users bc ops (RegisterUser bc salt av db u p).2
    rw [hreg] at hx ⊢
    simp only [ValidateUser, hx, hfind extra, hpw]

/-- Witness for C3: registering `alice` in the freshly created database. -/
theorem registerUser_then_validateUser_witness :
    (∀ r ∈ createTables.users, r.username ≠ "alice") ∧
    ∃ row : UserRow,
      (RegisterUser exampleBcrypt 0 (.ok (.ok [])) createTables "alice" "pw1").1 = none ∧
      (RegisterUser exampleBcrypt 0 (.ok (.ok [])) createTables "alice" "pw1").2.users
        = createTables.users ++ [row] ∧
      row.username = "alice" ∧
      ValidateUser exampleBcrypt
        (RegisterUser exampleBcrypt 0 (.ok (.ok [])) createTables "alice" "pw1").2 "alice" "pw1"
        = .ok row.id ∧
      ∀ ops, ValidateUser exampleBcrypt
        (runOps exampleBcrypt
          (RegisterUser exampleBcrypt 0 (.ok (.ok [])) createTables "alice" "pw1").2 ops)
        "alice" "pw1" = .ok row.id :=
  ⟨by simp [createTables],
   registerUser_then_validateUser exampleBcrypt 0 (.ok (.ok [])) createTables "alice" "pw1"
     "hash of pw1" (by simp [createTables]) rfl (by decide)⟩

/-- C4: in a store that holds a user named `u`, `RegisterUser u p` fails with the error
`username already exists` for every password `p` and leaves the store as it was;
`RegisterHandler`, for a body with that username, answers 409 Conflict (400 when the password is
empty, before `RegisterUser` is reached) and leaves the store as it was. -/
theorem registerUser_existing_username (bc : Bcrypt) (salt : Nat) (av : AvatarFetch) (db : Store)
    (u p : String) (i sc : Int) (sp : ℚ)
    (hex : ∃ r ∈ db.users, r.username = u) :
    RegisterUser bc salt av db u p = (some "username already exists", db) ∧
    RegisterHandler bc salt av db (.ok ⟨i, u, p, sc, sp⟩)
      = (if u = "" ∨ p = "" then .error "Username and password are required" 400
         else .error "Username already exists" 409, db) := by
  have hany : db.users.any (fun r => decide (r.username = u)) = true := by
    obtain ⟨r, hr, hru⟩ := hex
    exact List.any_eq_true.2 ⟨r, hr, by simpa using hru⟩
  have hreg : RegisterUser bc salt av db u p = (some "username already exists", db) := by
    simp only [RegisterUser, hany, if_true]
  refine ⟨hreg, ?_⟩
  simp only [RegisterHandler]
  split
  · rfl
  · rw [hreg]
    simp

/-- Witness for C4: `alice` registers a second time, with another password. -/
theorem registerUser_existing_username_witness :
    (∃ r ∈ aliceStore.users, r.username = "alice") ∧
    RegisterUser exampleBcrypt 1 (.ok (.ok [])) aliceStore "alice" "pw2"
      = (some "username already exists", aliceStore) ∧
    RegisterHandler exampleBcrypt 1 (.ok (.ok [])) aliceStore (.ok ⟨0, "alice", "pw2", 0, 0⟩)
      = (if "alice" = "" ∨ "pw2" = "" then .error "Username and password are required" 400
         else .error "Username already exists" 409, aliceStore) :=
  ⟨⟨⟨1, "alice", "hash of pw1", ""⟩, by decide, rfl⟩,
   registerUser_existing_username exampleBcrypt 1 (.ok (.ok [])) aliceStore "alice" "pw2" 0 0 0
     ⟨⟨1, "alice", "hash of pw1", ""⟩, by decide, rfl⟩⟩

/-- C5: for non-empty usernames and passwords, `LoginHandler` gives the same answer when the
username is unknown as when the username is registered and the stored hash rejects the password:
`http.Error` with `Invalid credentials` and status 401, and no session values written. -/
theorem loginHandler_failures_identical (bc : Bcrypt) (db1 db2 : Store)
    (sessionGet1 sessionGet2 : Except String SessionValues) (saveErr1 saveErr2 : Option String)
    (user1 user2 : User)
    (hu1 : user1.Username ≠ "") (hp1 : user1.Password ≠ "")
    (hu2 : user2.Username ≠ "") (hp2 : user2.Password ≠ "")
    (hunknown : ∀ r ∈ db1.users, r.username ≠ user1.Username)
    (hknown : ∃ r ∈ db2.users, r.username = user2.Username)
    (hwrong : ∀ r ∈ db2.users, r.username = user2.Username →
      bc.CompareHashAndPassword r.password user2.Password ≠ none) :
    LoginHandler bc db1 sessionGet1 saveErr1 (.ok user1)
      = LoginHandler bc db2 sessionGet2 saveErr2 (.ok user2) ∧
    LoginHandler bc db1 sessionGet1 saveErr1 (.ok user1)
      = (.error "Invalid credentials" 401, none) ∧
    LoginHandler bc db2 sessionGet2 saveErr2 (.ok user2)
      = (.error "Invalid credentials" 401, none) := by
  have hv1 : ∃ e, ValidateUser bc db1 user1.Username user1.Password = .error e := by
    have hfind : db1.users.find? (fun r => decide (r.username = user1.Username)) = none := by
      rw [List.find?_eq_none]
      intro r hr hc
      exact hunknown r hr (by simpa using hc)
    exact ⟨"sql: no rows in result set", by simp only [ValidateUser, hfind]⟩
  have hv2 : ∃ e, ValidateUser bc db2 user2.Username user2.Password = .error e := by
    obtain ⟨r0, hr0, hr0u⟩ := hknown
    cases hfind : db2.users.find? (fun r => decide (r.username = user2.Username)) with
    | none =>
      exact absurd hr0u (by simpa using (List.find?_eq_none.1 hfind) r0 hr0)
    | some row =>
      have hmem : row ∈ db2.users := List.mem_of_find?_eq_some hfind
      have hrow : row.username = user2.Username := by
        simpa using
          @List.find?_some _ (fun r : UserRow => decide (r.username = user2.Username)) _ _ hfind
      cases hc : bc.CompareHashAndPassword row.password user2.Password with
      | none => exact absurd hc (hwrong row hmem hrow)
      | some e => exact ⟨e, by simp only [ValidateUser, hfind, hc]⟩
  obtain ⟨e1, hv1⟩ := hv1
  obtain ⟨e2, hv2⟩ := hv2
  have h1 : LoginHandler bc db1 sessionGet1 saveErr1 (.ok user1)
      = (.error "Invalid credentials" 401, none) := by
    simp [LoginHandler, hu1, hp1, hv1]
  have h2 : LoginHandler bc db2 sessionGet2 saveErr2 (.ok user2)
      = (.error "Invalid credentials" 401, none) := by
    simp [LoginHandler, hu2, hp2, hv2]
  exact ⟨h1.trans h2.symm, h1, h2⟩

/-- Witness for C5: with `alice`/`pw1` registered, a login of the unknown `bob` and a login of
`alice` with the password `wrong` are answered alike. -/
theorem loginHandler_failures_identical_witness :
    LoginHandler exampleBcrypt aliceStore (.ok ⟨none, none⟩) none (.ok ⟨0, "bob", "pw1", 0, 0⟩)
      = LoginHandler exampleBcrypt aliceStore (.ok ⟨none, none⟩) none
          (.ok ⟨0, "alice", "wrong", 0, 0⟩) ∧
    LoginHandler exampleBcrypt aliceStore (.ok ⟨none, none⟩) none (.ok ⟨0, "bob", "pw1", 0, 0⟩)
      = (.error "Invalid credentials" 401, none) ∧
    LoginHandler exampleBcrypt aliceStore (.ok ⟨none, none⟩) none
        (.ok ⟨0, "alice", "wrong", 0, 0⟩)
      = (.error "Invalid credentials" 401, none) :=
  loginHandler_failures_identical exampleBcrypt aliceStore aliceStore (.ok ⟨none, none⟩)
    (.ok ⟨none, none⟩) none none ⟨0, "bob", "pw1", 0, 0⟩ ⟨0, "alice", "wrong", 0, 0⟩
    (by decide) (by decide) (by decide) (by decide) (by decide)
    ⟨⟨1, "alice", "hash of pw1", ""⟩, by decide, rfl⟩ (by decide)

/-! ## Theorems: GitHub identities -/

theorem find?_eq_head?_filter {α : Type} (p : α → Bool) (l : List α) :
    l.find? p = (l.filter p).head? := by
  induction l with
  | nil => rfl
  | cons a l ih =>
    by_cases h : p a = true
    · rw [List.find?_cons_of_pos _ h, List.filter_cons_of_pos h]
      rfl
    · rw [List.find?_cons_of_neg _ h, List.filter_cons_of_neg h]
      exact ih

theorem getOrCreateGithubUser_of_find (db : Store) (g : Int) (n : String) (row : GithubUserRow)
    (h : db.github_users.find? (fun r => decide (r.github_id = g)) = some row) :
    GetOrCreateGithubUser db g n = (.ok row.id, db) := by
  simp only [GetOrCreateGithubUser, h]

/-- A call leaves the `github_users` rows of `g` as they are, once there is one. -/
theorem step_github_filter (bc : Bcrypt) (db : Store) (g : Int) (op : StoreOp)
    (hne : db.github_users.filter (fun r => decide (r.github_id = g)) ≠ []) :
    (StoreOp.step bc db op).github_users.filter (fun r => decide (r.github_id = g))
      = db.github_users.filter (fun r => decide (r.github_id = g)) := by
  cases op with
  | register salt av u p =>
    have : (RegisterUser bc salt av db u p).2.github_users = db.github_users := by
      unfold RegisterUser insertUser
      by_cases hany : db.users.any (fun r => decide (r.username = u)) = true
      · simp [hany]
      · cases hg : bc.GenerateFromPassword p salt <;> simp [hany]
    simp only [StoreOp.step, this]
  | saveScore uid sc sp => simp [StoreOp.step, SaveScore]
  | githubUser g2 n =>
    simp only [StoreOp.step, GetOrCreateGithubUser]
    cases hf : db.github_users.find? (fun r => decide (r.github_id = g2)) with
    | some row => rfl
    | none =>
      have hany : db.github_users.any (fun r => decide (r.github_id = g2)) = false := by
        rw [Bool.eq_false_iff]
        intro hc
        obtain ⟨r, hr, hrg⟩ := List.any_eq_true.1 hc
        exact (List.find?_eq_none.1 hf) r hr hrg
      have hg : g2 ≠ g := by
        rintro rfl
        rw [find?_eq_head?_filter] at hf
        exact hne (List.head?_eq_none_iff.1 hf)
      simp [insertGithubUser, hany, List.filter_append, hg]

theorem runOps_github_filter (bc : Bcrypt) (g : Int) (ops : List StoreOp) (db : Store)
    (hne : db.github_users.filter (fun r => decide (r.github_id = g)) ≠ []) :
    (runOps bc db ops).github_users.filter (fun r => decide (r.github_id = g))
      = db.github_users.filter (fun r => decide (r.github_id = g)) := by
  induction ops generalizing db with
  | nil => rfl
  | cons op ops ih =>
    have h1 := step_github_filter bc db g op hne
    have h2 := ih (StoreOp.step bc db op) (by rw [h1]; exact hne)
    simp only [runOps, List.foldl_cons] at h2 ⊢
    rw [h2, h1]

/-- C8: `GetOrCreateGithubUser g n1` returns an id `i`; after any further sequence of
registrations, score submissions and GitHub logins, `GetOrCreateGithubUser g n2` returns the same
`i` and leaves the whole store as it was, and the `github_users` rows of `g` are still the ones
present after the first call, which is the single row `(i, g, n1)` when `g` was new. -/
theorem getOrCreateGithubUser_idempotent (bc : Bcrypt) (db : Store) (g : Int) (n1 n2 : String)
    (ops : List StoreOp) :
    ∃ i,
      (GetOrCreateGithubUser db g n1).1 = .ok i ∧
      GetOrCreateGithubUser (runOps bc (GetOrCreateGithubUser db g n1).2 ops) g n2
        = (.ok i, runOps bc (GetOrCreateGithubUser db g n1).2 ops) ∧
      (runOps bc (GetOrCreateGithubUser db g n1).2 ops).github_users.filter
          (fun r => decide (r.github_id = g))
        = (GetOrCreateGithubUser db g n1).2.github_users.filter
          (fun r => decide (r.github_id = g)) ∧
      (GetOrCreateGithubUser db g n1).2.github_users.filter (fun r => decide (r.github_id = g))
        = if db.github_users.any (fun r => decide (r.github_id = g)) then
            db.github_users.filter (fun r => decide (r.github_id = g))
          else [⟨i, g, n1⟩] := by
  -- the row found by the lookup after the first call
  have key : ∃ row, (GetOrCreateGithubUser db g n1).1 = .ok row.id ∧
      (GetOrCreateGithubUser db g n1).2.github_users.find? (fun r => decide (r.github_id = g))
        = some row ∧
      (GetOrCreateGithubUser db g n1).2.github_users.filter (fun r => decide (r.github_id = g))
        = if db.github_users.any (fun r => decide (r.github_id = g)) then
            db.github_users.filter (fun r => decide (r.github_id = g))
          else [⟨row.id, g, n1⟩] := by
    cases hf : db.github_users.find? (fun r => decide (r.github_id = g)) with
    | some row =>
      have hany : db.github_users.any (fun r => decide (r.github_id = g)) = true :=
        List.any_eq_true.2 ⟨row, List.mem_of_find?_eq_some hf,
          @List.find?_some _ (fun r : GithubUserRow => decide (r.github_id = g)) _ _ hf⟩
      refine ⟨row, ?_, ?_, ?_⟩
      · simp only [GetOrCreateGithubUser, hf]
      · simp only [GetOrCreateGithubUser, hf]
      · simp only [GetOrCreateGithubUser, hf, hany, if_true]
    | none =>
      have hany : db.github_users.any (fun r => decide (r.github_id = g)) = false := by
        rw [Bool.eq_false_iff]
        intro hc
        obtain ⟨r, hr, hrg⟩ := List.any_eq_true.1 hc
        exact (List.find?_eq_none.1 hf) r hr hrg
      have hfilter : db.github_users.filter (fun r => decide (r.github_id = g)) = [] := by
        rw [find?_eq_head?_filter] at hf
        exact List.head?_eq_none_iff.1 hf
      refine ⟨⟨nextId (db.github_users.map (·.id)) db.githubSeq, g, n1⟩, ?_, ?_, ?_⟩
      · simp [GetOrCreateGithubUser, hf, insertGithubUser, hany]
      · simp [GetOrCreateGithubUser, hf, insertGithubUser, hany, List.find?_append]
      · simp [GetOrCreateGithubUser, hf, insertGithubUser, hany, List.filter_append, hfilter]
  obtain ⟨row, hid, hfind, hfilter⟩ := key
  have hne : (GetOrCreateGithubUser db g n1).2.github_users.filter
      (fun r => decide (r.github_id = g)) ≠ [] := by
    intro hc
    rw [find?_eq_head?_filter, hc] at hfind
    exact absurd hfind (by simp)
  have hkeep := runOps_github_filter bc g ops (GetOrCreateGithubUser db g n1).2 hne
  have hfind2 : (runOps bc (GetOrCreateGithubUser db g n1).2 ops).github_users.find?
      (fun r => decide (r.github_id = g)) = some row := by
    rw [find?_eq_head?_filter, hkeep, ← find?_eq_head?_filter, hfind]
  exact ⟨row.id, hid, getOrCreateGithubUser_of_find _ g n2 row hfind2, hkeep, hfilter⟩

/-! ## Theorems: leaderboard -/

theorem sorted_byScoreDesc (l : List (ScoreRow × UserRow)) :
    (l.insertionSort byScoreDesc).Pairwise byScoreDesc :=
  @List.sorted_insertionSort _ byScoreDesc _ ⟨fun a b => le_total b.1.score a.1.score⟩
    ⟨fun _ _ _ hab hbc => le_trans hbc hab⟩ l

theorem sorted_bySpeedAsc (l : List (ScoreRow × UserRow)) :
    (l.insertionSort bySpeedAsc).Pairwise bySpeedAsc :=
  @List.sorted_insertionSort _ bySpeedAsc _ ⟨fun a b => le_total a.1.avg_speed b.1.avg_speed⟩
    ⟨fun _ _ _ hab hbc => le_trans hab hbc⟩ l

theorem leaderboardRows_length (db : Store) (sortBy : String) :
    (leaderboardRows db sortBy).length ≤ 10 := by
  unfold leaderboardRows
  split <;> simp [List.length_take]

/-- C6: `GetLeaderboard` returns at most 10 entries whatever the tables hold and whatever
`sortBy` is; with `sortBy = "score"` every entry has a score at least that of every later entry,
in particular of the next one, and with `sortBy = "speed"` every entry has an average speed at
most that of every later entry, in particular of the next one. -/
theorem getLeaderboard_sorted_capped (db : Store) :
    (∀ sortBy, ∃ es, GetLeaderboard db sortBy = .ok es ∧ es.length ≤ 10) ∧
    (∃ es, GetLeaderboard db "score" = .ok es ∧ es.length ≤ 10 ∧
      es.Chain' (fun a b => a.Score ≥ b.Score) ∧ es.Pairwise (fun a b => a.Score ≥ b.Score)) ∧
    (∃ es, GetLeaderboard db "speed" = .ok es ∧ es.length ≤ 10 ∧
      es.Chain' (fun a b => a.AvgSpeed ≤ b.AvgSpeed) ∧
      es.Pairwise (fun a b => a.AvgSpeed ≤ b.AvgSpeed)) := by
  have hlen : ∀ sortBy, ((leaderboardRows db sortBy).map scanEntry).length ≤ 10 := by
    intro sortBy
    rw [List.length_map]
    exact leaderboardRows_length db sortBy
  have hscore : ((leaderboardRows db "score").map scanEntry).Pairwise
      (fun a b => a.Score ≥ b.Score) := by
    rw [List.pairwise_map]
    have h : leaderboardRows db "score"
        = ((joinScoresUsers db).insertionSort byScoreDesc).take 10 := by
      simp [leaderboardRows]
    rw [h]
    exact (sorted_byScoreDesc _).sublist (List.take_sublist _ _)
  have hspeed : ((leaderboardRows db "speed").map scanEntry).Pairwise
      (fun a b => a.AvgSpeed ≤ b.AvgSpeed) := by
    rw [List.pairwise_map]
    have h : leaderboardRows db "speed"
        = ((joinScoresUsers db).insertionSort bySpeedAsc).take 10 := by
      simp [leaderboardRows]
    rw [h]
    exact (sorted_bySpeedAsc _).sublist (List.take_sublist _ _)
  exact ⟨fun sortBy => ⟨_, rfl, hlen sortBy⟩,
    ⟨_, rfl, hlen "score", hscore.chain', hscore⟩,
    ⟨_, rfl, hlen "speed", hspeed.chain', hspeed⟩⟩

theorem split_sorted_perm {α : Type} (r : α → α → Prop) (S J : List α) (x : α)
    (hs : S.Pairwise r) (hperm : S.Perm (J ++ [x])) :
    ∃ A B, S = A ++ x :: B ∧ (A ++ B).Perm J ∧ (∀ y ∈ A, r y x) ∧ (∀ y ∈ B, r x y) := by
  have hx : x ∈ S := hperm.symm.subset (by simp)
  obtain ⟨A, B, rfl⟩ := List.append_of_mem hx
  refine ⟨A, B, rfl, ?_, ?_, ?_⟩
  · have h1 : (x :: (A ++ B)).Perm (x :: J) :=
      (List.perm_middle.symm.trans hperm).trans (List.perm_append_singleton x J)
    exact h1.cons_inv
  · intro y hy
    exact (List.pairwise_append.1 hs).2.2 y hy x (by simp)
  · intro y hy
    exact (List.pairwise_cons.1 (List.pairwise_append.1 hs).2.1).1 y hy

/-- In a sorted arrangement of `J` and `x`, `x` is among the first `n` elements when fewer than
`n` elements of `J` are not behind it. -/
theorem mem_take_of_few_before {α : Type} (r : α → α → Prop) [DecidableRel r] (S J : List α)
    (x : α) (n : Nat) (hs : S.Pairwise r) (hperm : S.Perm (J ++ [x]))
    (hcount : (J.filter fun y => decide (r y x)).length < n) : x ∈ S.take n := by
  obtain ⟨A, B, rfl, hAB, hA, -⟩ := split_sorted_perm r S J x hs hperm
  have h1 : (A.filter fun y => decide (r y x)) = A :=
    List.filter_eq_self.2 fun y hy => by simpa using hA y hy
  have h2 : A.length ≤ (J.filter fun y => decide (r y x)).length := by
    rw [← (hAB.filter _).length_eq, List.filter_append, List.length_append, h1]
    omega
  rw [List.take_append_eq_append_take, List.take_of_length_le (by omega)]
  have h3 : n - A.length = (n - A.length - 1) + 1 := by omega
  rw [h3, List.take_succ_cons]
  simp

/-- In a sorted arrangement of `J` and `x`, `x` is not among the first `n` elements when at
least `n` elements of `J` are strictly ahead of it. -/
theorem not_mem_take_of_many_ahead {α : Type} (r : α → α → Prop) [DecidableRel r]
    (S J : List α) (x : α) (n : Nat) (hs : S.Pairwise r) (hperm : S.Perm (J ++ [x]))
    (hx : x ∉ J) (hcount : n ≤ (J.filter fun y => decide (¬ r x y)).length) :
    x ∉ S.take n := by
  obtain ⟨A, B, rfl, hAB, -, hB⟩ := split_sorted_perm r S J x hs hperm
  have h1 : (B.filter fun y => decide (¬ r x y)) = [] :=
    List.filter_eq_nil_iff.2 fun y hy => by simpa using hB y hy
  have h2 : (J.filter fun y => decide (¬ r x y)).length ≤ A.length := by
    rw [← (hAB.filter _).length_eq, List.filter_append, List.length_append, h1]
    simpa using List.length_filter_le _ A
  have h3 : n - A.length = 0 := by omega
  rw [List.take_append_eq_append_take, h3, List.take_zero, List.append_nil]
  intro hc
  exact hx (hAB.subset (List.mem_append_left B (List.mem_of_mem_take hc)))

theorem le_foldl_max (ids : List Int) (seq : Int) :
    seq ≤ ids.foldl max seq ∧ ∀ x ∈ ids, x ≤ ids.foldl max seq := by
  induction ids generalizing seq with
  | nil => simp
  | cons a ids ih =>
    obtain ⟨h1, h2⟩ := ih (max seq a)
    refine ⟨le_trans (le_max_left _ _) h1, ?_⟩
    intro x hx
    rcases List.mem_cons.1 hx with rfl | hx
    · exact le_trans (le_max_right _ _) h1
    · exact h2 x hx

/-- The rowid handed out by `AUTOINCREMENT` is above every rowid in the table. -/
theorem lt_nextId (ids : List Int) (seq : Int) : ∀ x ∈ ids, x < nextId ids seq := by
  intro x hx
  have := (le_foldl_max ids seq).2 x hx
  unfold nextId
  omega

theorem filter_id_of_nodup (users : List UserRow) (u : UserRow) (hu : u ∈ users)
    (hpk : (users.map (·.id)).Nodup) :
    users.filter (fun v => decide (u.id = v.id)) = [u] := by
  induction users with
  | nil => simp at hu
  | cons a l ih =>
    rw [List.map_cons, List.nodup_cons] at hpk
    rcases List.mem_cons.1 hu with rfl | hu
    · have : l.filter (fun v => decide (u.id = v.id)) = [] := by
        rw [List.filter_eq_nil_iff]
        intro v hv hc
        exact hpk.1 (by rw [of_decide_eq_true hc]; exact List.mem_map_of_mem _ hv)
      simp [List.filter_cons, this]
    · have hne : u.id ≠ a.id := by
        intro hc
        exact hpk.1 (by rw [← hc]; exact List.mem_map_of_mem _ hu)
      simp [List.filter_cons, hne, ih hu hpk.2]

theorem joinScoresUsers_saveScore (db : Store) (userID score : Int) (avgSpeed : ℚ) :
    joinScoresUsers (SaveScore db userID score avgSpeed).2
      = joinScoresUsers db ++
        (db.users.filter fun u => decide (userID = u.id)).map fun u =>
          ((⟨nextId (db.scores.map (·.id)) db.scoresSeq, userID, score, avgSpeed⟩ : ScoreRow), u)
    := by
  simp [joinScoresUsers, SaveScore, List.flatMap_append]

theorem joinScoresUsers_id_lt (db : Store) :
    ∀ r ∈ joinScoresUsers db, r.1.id < nextId (db.scores.map (·.id)) db.scoresSeq := by
  intro r hr
  simp only [joinScoresUsers, List.mem_flatMap, List.mem_map] at hr
  obtain ⟨s, hs, u, -, rfl⟩ := hr
  exact lt_nextId _ _ _ (List.mem_map_of_mem _ hs)

theorem hits_without_row (r : ScoreRow × UserRow → ScoreRow × UserRow → Prop) [DecidableRel r]
    (J : List (ScoreRow × UserRow)) (newId : Int) (n : Nat)
    (hJ : ∀ y ∈ J, y.1.id ≠ newId) :
    ((J.insertionSort r).take n).filter (fun y => decide (y.1.id = newId)) = [] := by
  rw [List.filter_eq_nil_iff]
  intro y hy hc
  exact hJ y ((List.perm_insertionSort r J).subset (List.mem_of_mem_take hy))
    (of_decide_eq_true hc)

theorem hits_with_row (r : ScoreRow × UserRow → ScoreRow × UserRow → Prop) [DecidableRel r]
    (hsorted : ∀ l : List (ScoreRow × UserRow), (l.insertionSort r).Pairwise r)
    (J : List (ScoreRow × UserRow)) (x : ScoreRow × UserRow) (newId : Int) (n : Nat)
    (hJ : ∀ y ∈ J, y.1.id ≠ newId) (hx : x.1.id = newId) :
    ((((J ++ [x]).insertionSort r).take n).filter (fun y => decide (y.1.id = newId))).length ≤ 1 ∧
    ((J.filter fun y => decide (r y x)).length < n →
      (((J ++ [x]).insertionSort r).take n).filter (fun y => decide (y.1.id = newId)) = [x]) ∧
    (n ≤ (J.filter fun y => decide (¬ r x y)).length →
      (((J ++ [x]).insertionSort r).take n).filter (fun y => decide (y.1.id = newId)) = []) := by
  have hperm := List.perm_insertionSort r (J ++ [x])
  have hxJ : x ∉ J := fun hc => hJ x hc hx
  have hJnil : J.filter (fun y => decide (y.1.id = newId)) = [] :=
    List.filter_eq_nil_iff.2 fun y hy hc => hJ y hy (of_decide_eq_true hc)
  have hall : ((J ++ [x]).insertionSort r).filter (fun y => decide (y.1.id = newId)) = [x] := by
    apply List.perm_singleton.1
    have := hperm.filter (fun y => decide (y.1.id = newId))
    rwa [List.filter_append, hJnil, List.nil_append, List.filter_cons_of_pos (by simpa using hx),
      List.filter_nil] at this
  have hsub : ((((J ++ [x]).insertionSort r).take n).filter
      (fun y => decide (y.1.id = newId))).Sublist [x] := by
    have := (List.take_sublist n ((J ++ [x]).insertionSort r)).filter
      (fun y => decide (y.1.id = newId))
    rwa [hall] at this
  have hmem : x ∈ ((J ++ [x]).insertionSort r).take n →
      (((J ++ [x]).insertionSort r).take n).filter (fun y => decide (y.1.id = newId)) = [x] := by
    intro hin
    rcases List.sublist_singleton.1 hsub with h | h
    · have : x ∈ (((J ++ [x]).insertionSort r).take n).filter
          (fun y => decide (y.1.id = newId)) :=
        List.mem_filter.2 ⟨hin, by simpa using hx⟩
      rw [h] at this
      simp at this
    · exact h
  have hnot : x ∉ ((J ++ [x]).insertionSort r).take n →
      (((J ++ [x]).insertionSort r).take n).filter (fun y => decide (y.1.id = newId)) = [] := by
    intro hout
    rcases List.sublist_singleton.1 hsub with h | h
    · exact h
    · have : x ∈ (((J ++ [x]).insertionSort r).take n).filter
          (fun y => decide (y.1.id = newId)) := by
        rw [h]
        simp
      exact absurd (List.mem_filter.1 this).1 hout
  refine ⟨?_, ?_, ?_⟩
  · simpa using hsub.length_le
  · intro hc
    exact hmem (mem_take_of_few_before r _ J x n (hsorted _) hperm hc)
  · intro hc
    exact hnot (not_mem_take_of_many_ahead r _ J x n (hsorted _) hperm hxJ hc)

theorem rowsNotBehind_speed (db : Store) (score : Int) (avgSpeed : ℚ) (x : ScoreRow × UserRow)
    (hx : x.1.avg_speed = avgSpeed) :
    rowsNotBehind db "speed" score avgSpeed
      = (joinScoresUsers db).filter fun y => decide (bySpeedAsc y x) := by
  simp [rowsNotBehind, bySpeedAsc, hx]

theorem rowsNotBehind_score (db : Store) (sortBy : String) (hs : sortBy ≠ "speed") (score : Int)
    (avgSpeed : ℚ) (x : ScoreRow × UserRow) (hx : x.1.score = score) :
    rowsNotBehind db sortBy score avgSpeed
      = (joinScoresUsers db).filter fun y => decide (byScoreDesc y x) := by
  simp [rowsNotBehind, byScoreDesc, hx, hs]

theorem rowsAhead_speed (db : Store) (score : Int) (avgSpeed : ℚ) (x : ScoreRow × UserRow)
    (hx : x.1.avg_speed = avgSpeed) :
    rowsAhead db "speed" score avgSpeed
      = (joinScoresUsers db).filter fun y => decide (¬ bySpeedAsc x y) := by
  simp [rowsAhead, bySpeedAsc, hx]

theorem rowsAhead_score (db : Store) (sortBy : String) (hs : sortBy ≠ "speed") (score : Int)
    (avgSpeed : ℚ) (x : ScoreRow × UserRow) (hx : x.1.score = score) :
    rowsAhead db sortBy score avgSpeed
      = (joinScoresUsers db).filter fun y => decide (¬ byScoreDesc x y) := by
  simp [rowsAhead, byScoreDesc, hx, hs]

/-- The leaderboard after `SaveScore` when no `users` row has the submitted user id. -/
theorem leaderboardHits_unknown_user (db : Store) (userID score : Int) (avgSpeed : ℚ)
    (sortBy : String) (hno : ∀ u ∈ db.users, u.id ≠ userID) :
    leaderboardHits (SaveScore db userID score avgSpeed).2 sortBy
      (nextId (db.scores.map (·.id)) db.scoresSeq) = [] := by
  have hfil : (db.users.filter fun u => decide (userID = u.id)) = [] :=
    List.filter_eq_nil_iff.2 fun u hu hc => hno u hu (of_decide_eq_true hc).symm
  have hJ : ∀ y ∈ joinScoresUsers db, y.1.id ≠ nextId (db.scores.map (·.id)) db.scoresSeq :=
    fun y hy => ne_of_lt (joinScoresUsers_id_lt db y hy)
  unfold leaderboardHits leaderboardRows
  rw [joinScoresUsers_saveScore, hfil, List.map_nil, List.append_nil]
  split
  · exact hits_without_row bySpeedAsc _ _ 10 hJ
  · exact hits_without_row byScoreDesc _ _ 10 hJ

/-- The leaderboard after `SaveScore` when the submitted user id is the id of the row `u`. -/
theorem leaderboardHits_known_user (db : Store) (userID score : Int) (avgSpeed : ℚ)
    (sortBy : String) (hpk : (db.users.map (·.id)).Nodup) (u : UserRow) (hu : u ∈ db.users)
    (hid : u.id = userID) :
    (leaderboardHits (SaveScore db userID score avgSpeed).2 sortBy
      (nextId (db.scores.map (·.id)) db.scoresSeq)).length ≤ 1 ∧
    ((rowsNotBehind db sortBy score avgSpeed).length < 10 →
      leaderboardHits (SaveScore db userID score avgSpeed).2 sortBy
        (nextId (db.scores.map (·.id)) db.scoresSeq)
        = [(⟨nextId (db.scores.map (·.id)) db.scoresSeq, userID, score, avgSpeed⟩, u)]) ∧
    (10 ≤ (rowsAhead db sortBy score avgSpeed).length →
      leaderboardHits (SaveScore db userID score avgSpeed).2 sortBy
        (nextId (db.scores.map (·.id)) db.scoresSeq) = []) := by
  have hfil : (db.users.filter fun v => decide (userID = v.id)) = [u] := by
    rw [← hid]
    exact filter_id_of_nodup db.users u hu hpk
  have hJ : ∀ y ∈ joinScoresUsers db, y.1.id ≠ nextId (db.scores.map (·.id)) db.scoresSeq :=
    fun y hy => ne_of_lt (joinScoresUsers_id_lt db y hy)
  unfold leaderboardHits leaderboardRows
  rw [joinScoresUsers_saveScore, hfil, List.map_cons, List.map_nil]
  by_cases hs : sortBy = "speed"
  · subst hs
    rw [if_pos rfl,
      rowsNotBehind_speed db score avgSpeed
        (⟨nextId (db.scores.map (·.id)) db.scoresSeq, userID, score, avgSpeed⟩, u) rfl,
      rowsAhead_speed db score avgSpeed
        (⟨nextId (db.scores.map (·.id)) db.scoresSeq, userID, score, avgSpeed⟩, u) rfl]
    exact hits_with_row bySpeedAsc sorted_bySpeedAsc _ _ _ 10 hJ rfl
  · rw [if_neg hs,
      rowsNotBehind_score db sortBy hs score avgSpeed
        (⟨nextId (db.scores.map (·.id)) db.scoresSeq, userID, score, avgSpeed⟩, u) rfl,
      rowsAhead_score db sortBy hs score avgSpeed
        (⟨nextId (db.scores.map (·.id)) db.scoresSeq, userID, score, avgSpeed⟩, u) rfl]
    exact hits_with_row byScoreDesc sorted_byScoreDesc _ _ _ 10 hJ rfl

/-- C7, as stated, fails. A score saved for a user id that no `users` row carries is in neither
leaderboard, and a score of 0 saved by `alice` after ten games with score 100 is not in the
leaderboard by score, although both calls of `SaveScore` succeed. -/
theorem saveScore_missing_from_leaderboard :
    (SaveScore createTables 1 5 1).1 = none ∧
    (leaderboardHits (SaveScore createTables 1 5 1).2 "score"
      (nextId (createTables.scores.map (·.id)) createTables.scoresSeq)).length ≠ 1 ∧
    (leaderboardHits (SaveScore createTables 1 5 1).2 "speed"
      (nextId (createTables.scores.map (·.id)) createTables.scoresSeq)).length ≠ 1 ∧
    (SaveScore tenScoresStore 1 0 1).1 = none ∧
    (leaderboardHits (SaveScore tenScoresStore 1 0 1).2 "score"
      (nextId (tenScoresStore.scores.map (·.id)) tenScoresStore.scoresSeq)).length ≠ 1 := by
  refine ⟨rfl, ?_, ?_, rfl, ?_⟩
  · decide
  · decide
  · decide

/-- C7, amended: `SaveScore` always succeeds and appends one `scores` row. With the primary key
of `users` unique, the rows of the leaderboard query (either ordering), which `GetLeaderboard`
scans into its entries one for one, then contain the new row at most once; exactly once, joined
with the user's row, when `userID` is the id of a `users` row and fewer than 10 earlier joined
rows are not behind it in the ordering; and not at all when no `users` row has the id `userID` or
when at least 10 joined rows are strictly ahead of it. -/
theorem saveScore_then_leaderboard (db : Store) (userID score : Int) (avgSpeed : ℚ)
    (sortBy : String) (hpk : (db.users.map (·.id)).Nodup) :
    (SaveScore db userID score avgSpeed).1 = none ∧
    (SaveScore db userID score avgSpeed).2.scores
      = db.scores ++ [⟨nextId (db.scores.map (·.id)) db.scoresSeq, userID, score, avgSpeed⟩] ∧
    GetLeaderboard (SaveScore db userID score avgSpeed).2 sortBy
      = .ok ((leaderboardRows (SaveScore db userID score avgSpeed).2 sortBy).map scanEntry) ∧
    (leaderboardHits (SaveScore db userID score avgSpeed).2 sortBy
      (nextId (db.scores.map (·.id)) db.scoresSeq)).length ≤ 1 ∧
    (∀ u ∈ db.users, u.id = userID → (rowsNotBehind db sortBy score avgSpeed).length < 10 →
      leaderboardHits (SaveScore db userID score avgSpeed).2 sortBy
        (nextId (db.scores.map (·.id)) db.scoresSeq)
        = [(⟨nextId (db.scores.map (·.id)) db.scoresSeq, userID, score, avgSpeed⟩, u)]) ∧
    ((∀ u ∈ db.users, u.id ≠ userID) →
      leaderboardHits (SaveScore db userID score avgSpeed).2 sortBy
        (nextId (db.scores.map (·.id)) db.scoresSeq) = []) ∧
    (10 ≤ (rowsAhead db sortBy score avgSpeed).length →
      leaderboardHits (SaveScore db userID score avgSpeed).2 sortBy
        (nextId (db.scores.map (·.id)) db.scoresSeq) = []) := by
  refine ⟨rfl, rfl, rfl, ?_, ?_, ?_, ?_⟩
  · by_cases hex : ∃ u ∈ db.users, u.id = userID
    · obtain ⟨u, hu, hid⟩ := hex
      exact (leaderboardHits_known_user db userID score avgSpeed sortBy hpk u hu hid).1
    · have hno : ∀ u ∈ db.users, u.id ≠ userID := fun u hu hc => hex ⟨u, hu, hc⟩
      rw [leaderboardHits_unknown_user db userID score avgSpeed sortBy hno]
      simp
  · intro u hu hid
    exact (leaderboardHits_known_user db userID score avgSpeed sortBy hpk u hu hid).2.1
  · exact leaderboardHits_unknown_user db userID score avgSpeed sortBy
  · intro hc
    by_cases hex : ∃ u ∈ db.users, u.id = userID
    · obtain ⟨u, hu, hid⟩ := hex
      exact (leaderboardHits_known_user db userID score avgSpeed sortBy hpk u hu hid).2.2 hc
    · exact leaderboardHits_unknown_user db userID score avgSpeed sortBy
        fun u hu hc => hex ⟨u, hu, hc⟩

/-- Witness for C7 (amended): `alice` saves her first score. -/
theorem saveScore_then_leaderboard_witness :
    (aliceStore.users.map (·.id)).Nodup ∧
    (rowsNotBehind aliceStore "score" 5 1).length < 10 ∧
    leaderboardHits (SaveScore aliceStore 1 5 1).2 "score"
        (nextId (aliceStore.scores.map (·.id)) aliceStore.scoresSeq)
      = [(⟨nextId (aliceStore.scores.map (·.id)) aliceStore.scoresSeq, 1, 5, 1⟩,
          ⟨1, "alice", "hash of pw1", ""⟩)] :=
  ⟨by decide, by decide,
   (saveScore_then_leaderboard aliceStore 1 5 1 "score" (by decide)).2.2.2.2.1
     ⟨1, "alice", "hash of pw1", ""⟩ (by decide) rfl (by decide)⟩

/-! ## The table constraints hold in every reachable store -/

theorem nodup_concat_of_not_mem {α : Type} (l : List α) (a : α) (h : l.Nodup) (ha : a ∉ l) :
    (l ++ [a]).Nodup := by
  rw [List.nodup_append]
  refine ⟨h, List.nodup_singleton a, ?_⟩
  intro x hx hx2
  rw [List.mem_singleton] at hx2
  exact ha (hx2 ▸ hx)

theorem nextId_not_mem (ids : List Int) (seq : Int) : nextId ids seq ∉ ids :=
  fun hc => lt_irrefl _ (lt_nextId ids seq _ hc)

theorem createTables_wf : createTables.WF :=
  ⟨List.nodup_nil, List.nodup_nil, List.nodup_nil, List.nodup_nil, List.nodup_nil⟩

theorem insertUser_wf (db : Store) (u h a : String) (hwf : db.WF) : (insertUser db u h a).2.WF := by
  unfold insertUser
  by_cases hany : db.users.any (fun r => decide (r.username = u)) = true
  · simpa [hany] using hwf
  · have hnot : u ∉ db.users.map (·.username) := by
      intro hc
      obtain ⟨r, hr, hru⟩ := List.mem_map.1 hc
      exact hany (List.any_eq_true.2 ⟨r, hr, by simpa using hru⟩)
    simp only [hany]
    exact
      { users_id := by
          simpa using nodup_concat_of_not_mem _ _ hwf.users_id (nextId_not_mem _ db.usersSeq)
        users_name := by simpa using nodup_concat_of_not_mem _ _ hwf.users_name hnot
        scores_id := hwf.scores_id
        github_id := hwf.github_id
        github_gid := hwf.github_gid }

theorem registerUser_wf (bc : Bcrypt) (salt : Nat) (av : AvatarFetch) (db : Store)
    (u p : String) (hwf : db.WF) : (RegisterUser bc salt av db u p).2.WF := by
  unfold RegisterUser
  by_cases hany : db.users.any (fun r => decide (r.username = u)) = true
  · simpa [hany] using hwf
  · cases hg : bc.GenerateFromPassword p salt with
    | error e => simpa [hany] using hwf
    | ok hashed => simpa [hany] using insertUser_wf db u hashed (fetchedAvatar av) hwf

theorem saveScore_wf (db : Store) (userID score : Int) (avgSpeed : ℚ) (hwf : db.WF) :
    (SaveScore db userID score avgSpeed).2.WF :=
  { users_id := hwf.users_id
    users_name := hwf.users_name
    scores_id := by
      simpa [SaveScore] using
        nodup_concat_of_not_mem _ _ hwf.scores_id (nextId_not_mem _ db.scoresSeq)
    github_id := hwf.github_id
    github_gid := hwf.github_gid }

theorem getOrCreateGithubUser_wf (db : Store) (g : Int) (n : String) (hwf : db.WF) :
    (GetOrCreateGithubUser db g n).2.WF := by
  unfold GetOrCreateGithubUser
  cases hf : db.github_users.find? (fun r => decide (r.github_id = g)) with
  | some row => exact hwf
  | none =>
    have hany : db.github_users.any (fun r => decide (r.github_id = g)) = false := by
      rw [Bool.eq_false_iff]
      intro hc
      obtain ⟨r, hr, hrg⟩ := List.any_eq_true.1 hc
      exact (List.find?_eq_none.1 hf) r hr hrg
    have hnot : g ∉ db.github_users.map (·.github_id) := by
      intro hc
      obtain ⟨r, hr, hrg⟩ := List.mem_map.1 hc
      exact (List.find?_eq_none.1 hf) r hr (by simpa using hrg)
    simp only [insertGithubUser, hany]
    exact
      { users_id := hwf.users_id
        users_name := hwf.users_name
        scores_id := hwf.scores_id
        github_id := by
          simpa using nodup_concat_of_not_mem _ _ hwf.github_id (nextId_not_mem _ db.githubSeq)
        github_gid := by simpa using nodup_concat_of_not_mem _ _ hwf.github_gid hnot }

/-- Every store reached from `createTables` by calls of `RegisterUser`, `SaveScore` and
`GetOrCreateGithubUser` satisfies the table constraints. -/
theorem runOps_wf (bc : Bcrypt) (ops : List StoreOp) (db : Store) (hwf : db.WF) :
    (runOps bc db ops).WF := by
  induction ops generalizing db with
  | nil => exact hwf
  | cons op ops ih =>
    have hstep : (StoreOp.step bc db op).WF := by
      cases op with
      | register salt av u p => exact registerUser_wf bc salt av db u p hwf
      | saveScore uid sc sp => exact saveScore_wf db uid sc sp hwf
      | githubUser g n => exact getOrCreateGithubUser_wf db g n hwf
    exact ih _ hstep

end MentalMath
